import Mathlib

/-!
Verification development for the learnos repository.

The two algorithmic subsystems are embedded shallowly:
* the SM-2 spaced-repetition scheduler of the review route
  (src/unnamed/part_002, lines 147-208), and
* the cosine-similarity ranking used by the chat context-injection
  call site (lines 76-89) and the search call site (lines 277-289),
  together with cosineSimilarity itself (lines 443-459).

JavaScript numbers are modelled as exact rationals; similarity scores,
which involve a square root, live in the reals.  JavaScript repetition
counts and intervals are integers in the database schema, modelled as
Nat and Int respectively.
-/

namespace LearnOS

/-- Math.round of JavaScript on a rational argument: round half toward
positive infinity, i.e. the floor of x + 1/2. -/
def jsRound (x : ℚ) : ℤ := ⌊x + 1/2⌋

/-- The SM-2 fields of a flashcard row: ease_factor (default 2.5),
interval in days (default 0) and repetitions (default 0), per the
drizzle schema of the flashcards table. -/
structure RepetitionState where
  easeFactor : ℚ
  interval : ℤ
  repetitions : ℕ
deriving DecidableEq, Repr

/-- A fresh flashcard: easeFactor 2.5, interval 0, repetitions 0. -/
def defaultState : RepetitionState := { easeFactor := 2.5, interval := 0, repetitions := 0 }

/-- The ease-factor update of line 181:
easeFactor = Math.max(1.3, easeFactor + (0.1 - (5 - q) * (0.08 + (5 - q) * 0.02))). -/
def updateEase (ef q : ℚ) : ℚ :=
  max 1.3 (ef + (0.1 - (5 - q) * (0.08 + (5 - q) * 0.02)))

/-- The SM-2 transition of lines 161-181.  For q >= 3 the interval is
1, 6 or Math.round(interval * easeFactor) according to the repetition
count, and repetitions is incremented; otherwise repetitions resets to
0 and the interval to 1.  In both branches the ease factor is then
updated from its pre-review value. -/
def sm2Review (s : RepetitionState) (q : ℚ) : RepetitionState :=
  if 3 ≤ q then
    { easeFactor := updateEase s.easeFactor q,
      interval :=
        if s.repetitions = 0 then 1
        else if s.repetitions = 1 then 6
        else jsRound ((s.interval : ℚ) * s.easeFactor),
      repetitions := s.repetitions + 1 }
  else
    { easeFactor := updateEase s.easeFactor q, interval := 1, repetitions := 0 }

/-- Errors the review route can answer with before persisting anything:
a 400 for a missing flashcardId or an undefined quality (lines 151-153),
a 404 for an unknown flashcard (lines 156-158). -/
inductive ReviewError where
  | invalidInput
  | notFound
deriving DecidableEq, Repr

/-- What a successful review persists: the updated repetition state
written back to the flashcard row, and the quality recorded in the
appended review event (lines 188-201). -/
structure ReviewOutcome where
  state : RepetitionState
  eventQuality : ℚ
deriving DecidableEq, Repr

/-- The review route handler, lines 147-208.  It rejects with a 400
only when the flashcardId or the quality is absent from the body, with
a 404 when the flashcard is unknown, and otherwise applies the SM-2
transition to the stored state with q = Number(quality) and persists
the result together with a review event carrying q.  No range check on
the quality is performed. -/
def reviewHandler (flashcardId : Option String) (quality : Option ℚ)
    (lookup : String → Option RepetitionState) : Except ReviewError ReviewOutcome :=
  match flashcardId, quality with
  | some fid, some q =>
    match lookup fid with
    | none => .error .notFound
    | some s => .ok { state := sm2Review s q, eventQuality := q }
  | _, _ => .error .invalidInput

/-- The next-review timestamp, measured in days: the review time plus
the freshly computed interval (lines 184-185). -/
def nextReviewAt (now interval : ℤ) : ℤ := now + interval

/-- States reachable from a fresh card by reviews whose quality is a
valid rating, i.e. lies between 0 and 5. -/
inductive Reachable : RepetitionState → Prop where
  | refl : Reachable defaultState
  | step {s : RepetitionState} (q : ℚ) : Reachable s → 0 ≤ q → q ≤ 5 →
      Reachable (sm2Review s q)

/-- First review with quality 4 from a fresh card. -/
theorem sm2_first_pass :
    sm2Review defaultState 4 = { easeFactor := 2.5, interval := 1, repetitions := 1 } := by
  norm_num [sm2Review, updateEase, defaultState]

/-- Second consecutive review with quality 4. -/
theorem sm2_second_pass :
    sm2Review (sm2Review defaultState 4) 4
      = { easeFactor := 2.5, interval := 6, repetitions := 2 } := by
  rw [sm2_first_pass]
  norm_num [sm2Review, updateEase]

/-- Third review with quality 5: the interval is computed from the
pre-update ease factor 2.5, so it is round(6 * 2.5) = 15, while the
ease factor then rises to 2.6. -/
theorem sm2_third_pass :
    sm2Review (sm2Review (sm2Review defaultState 4) 4) 5
      = { easeFactor := 2.6, interval := 15, repetitions := 3 } := by
  rw [sm2_second_pass]
  norm_num [sm2Review, updateEase, jsRound]

/-! ## Cosine similarity and the ranking pipelines -/

/-- The dot-product accumulator of the cosineSimilarity loop
(lines 450-454), over the common prefix of the two vectors; the route
only divides by it after the two length and zero-norm guards fired. -/
def dotProduct (a b : List ℚ) : ℚ := (List.zipWith (fun x y => x * y) a b).sum

/-- The squared-norm accumulator of the same loop: the sum of squares
of the entries of a vector. -/
def normSq (a : List ℚ) : ℚ := dotProduct a a

/-- cosineSimilarity of lines 443-459: 0 when the lengths differ, 0
when either norm accumulator is zero, otherwise the dot product divided
by the product of the square roots of the two squared norms. -/
noncomputable def cosineSimilarity (a b : List ℚ) : ℝ :=
  if a.length ≠ b.length then 0
  else if normSq a = 0 ∨ normSq b = 0 then 0
  else (dotProduct a b : ℝ) / (Real.sqrt (normSq a) * Real.sqrt (normSq b))

/-- The cosine of two vectors as the spec glossary defines it: dot
product divided by the product of the magnitudes, written directly
over the reals.  Used only to compare cosineSimilarity against the
words of the spec. -/
noncomputable def cosineSpec (a b : List ℚ) : ℝ :=
  (List.zipWith (fun x y => (x : ℝ) * (y : ℝ)) a b).sum
    / (Real.sqrt ((a.map fun x => ((x : ℝ)) ^ 2).sum)
        * Real.sqrt ((b.map fun x => ((x : ℝ)) ^ 2).sum))

/-- A note row as the two ranking call sites see it: a row identity
(its position among the rows the storage layer returned) and an
optional embedding column. -/
structure Candidate where
  id : ℕ
  embedding : Option (List ℚ)
deriving DecidableEq, Repr

/-- A candidate together with the similarity attached to it by the map
step of either pipeline. -/
structure ScoredNote where
  note : Candidate
  similarity : ℝ

instance : Inhabited ScoredNote := ⟨⟨⟨0, none⟩, 0⟩⟩

/-- The filter of lines 77 and 278: note.embedding && note.embedding.length > 0. -/
def hasEmbedding (c : Candidate) : Bool :=
  match c.embedding with
  | none => false
  | some e => !e.isEmpty

/-- The embedding a candidate that passed the filter is scored with. -/
def usableEmbedding (c : Candidate) : List ℚ := c.embedding.getD []

/-- The filter-and-map prefix shared by both call sites (lines 76-81
and 277-286): keep the candidates with a usable embedding and attach
cosineSimilarity(queryEmbedding, note.embedding) to each. -/
noncomputable def scoreCandidates (query : List ℚ) (notes : List Candidate) : List ScoredNote :=
  (notes.filter hasEmbedding).map fun c =>
    { note := c, similarity := cosineSimilarity query (usableEmbedding c) }

/-- Stable descending insertion: x goes in front of the first element
whose similarity does not exceed it.  Elements of equal similarity
keep their relative order, matching the stable Array.prototype.sort
with comparator (a, b) => b.similarity - a.similarity. -/
noncomputable def insertDesc (x : ScoredNote) : List ScoredNote → List ScoredNote
  | [] => [x]
  | y :: ys => if y.similarity ≤ x.similarity then x :: y :: ys else y :: insertDesc x ys

/-- Stable sort by descending similarity, the model of the sort step
of lines 82 and 288. -/
noncomputable def sortDesc : List ScoredNote → List ScoredNote
  | [] => []
  | x :: xs => insertDesc x (sortDesc xs)

/-- relevantNotes of the chat route, lines 76-83: score, sort
descending, slice(0, 3).  No per-candidate minScore filter appears
here. -/
noncomputable def chatRelevantNotes (query : List ℚ) (notes : List Candidate) : List ScoredNote :=
  (sortDesc (scoreCandidates query notes)).take 3

/-- The notes the chat route actually injects into the prompt, lines
85-89: all of relevantNotes when it is nonempty and the top similarity
exceeds 0.3, nothing otherwise. -/
noncomputable def chatContextNotes (query : List ℚ) (notes : List Candidate) : List ScoredNote :=
  match chatRelevantNotes query notes with
  | [] => []
  | top :: rest => if 0.3 < top.similarity then top :: rest else []

/-- The search route results, lines 277-289: score, keep the
candidates with similarity strictly above 0.3, sort descending,
slice(0, 10). -/
noncomputable def searchResults (query : List ℚ) (notes : List Candidate) : List ScoredNote :=
  (sortDesc ((scoreCandidates query notes).filter fun r => 0.3 < r.similarity)).take 10

/-- The ranking order with its stability condition: a strictly larger
similarity, and for equal similarities the earlier input position. -/
def rankedBefore (a b : ScoredNote) : Prop :=
  b.similarity ≤ a.similarity ∧ (a.similarity = b.similarity → a.note.id < b.note.id)

theorem mem_insertDesc (x z : ScoredNote) (l : List ScoredNote) :
    z ∈ insertDesc x l ↔ z = x ∨ z ∈ l := by
  induction l with
  | nil => simp [insertDesc]
  | cons y ys ih =>
    unfold insertDesc
    split
    · simp [List.mem_cons]
    · simp [List.mem_cons, ih]
      tauto

theorem mem_sortDesc (z : ScoredNote) (l : List ScoredNote) :
    z ∈ sortDesc l ↔ z ∈ l := by
  induction l with
  | nil => simp [sortDesc]
  | cons x xs ih => simp [sortDesc, mem_insertDesc, ih]

theorem pairwise_insertDesc (x : ScoredNote) (l : List ScoredNote)
    (hl : l.Pairwise rankedBefore)
    (hx : ∀ y ∈ l, x.note.id < y.note.id) :
    (insertDesc x l).Pairwise rankedBefore := by
  induction l with
  | nil => simp [insertDesc]
  | cons y ys ih =>
    rw [List.pairwise_cons] at hl
    obtain ⟨hy, hys⟩ := hl
    unfold insertDesc
    split
    case isTrue hcmp =>
      refine List.Pairwise.cons ?_ (List.Pairwise.cons hy hys)
      intro z hz
      rcases List.mem_cons.mp hz with rfl | hz2
      · exact ⟨hcmp, fun _ => hx z (by simp)⟩
      · have hyz := hy z hz2
        exact ⟨le_trans hyz.1 hcmp, fun _ => hx z (by simp [hz2])⟩
    case isFalse hcmp =>
      push_neg at hcmp
      refine List.Pairwise.cons ?_ (ih hys (fun z hz => hx z (by simp [hz])))
      intro z hz
      rcases (mem_insertDesc x z ys).mp hz with rfl | hz2
      · exact ⟨le_of_lt hcmp, fun heq => absurd heq (ne_of_gt hcmp)⟩
      · exact hy z hz2

theorem pairwise_sortDesc (l : List ScoredNote)
    (h : l.Pairwise fun a b => a.note.id < b.note.id) :
    (sortDesc l).Pairwise rankedBefore := by
  induction l with
  | nil => simp [sortDesc]
  | cons x xs ih =>
    rw [List.pairwise_cons] at h
    exact pairwise_insertDesc x (sortDesc xs) (ih h.2)
      (fun y hy => h.1 y ((mem_sortDesc y xs).mp hy))

theorem pairwise_ids_scoreCandidates (query : List ℚ) (notes : List Candidate)
    (h : notes.Pairwise fun a b => a.id < b.id) :
    (scoreCandidates query notes).Pairwise fun a b => a.note.id < b.note.id := by
  unfold scoreCandidates
  rw [List.pairwise_map]
  exact h.filter hasEmbedding

theorem chatContextNotes_cases (query : List ℚ) (notes : List Candidate) :
    chatContextNotes query notes = [] ∨
    chatContextNotes query notes = chatRelevantNotes query notes := by
  unfold chatContextNotes
  rcases heq : chatRelevantNotes query notes with _ | ⟨t, ts⟩
  · exact Or.inl rfl
  · by_cases hcond : (0.3 : ℝ) < t.similarity
    · exact Or.inr (by simp [hcond])
    · exact Or.inl (by simp [hcond])

theorem chatContextNotes_length (query : List ℚ) (notes : List Candidate) :
    (chatContextNotes query notes).length ≤ 3 := by
  rcases chatContextNotes_cases query notes with h | h <;> rw [h]
  · simp
  · unfold chatRelevantNotes
    exact List.length_take_le 3 _

theorem chatContextNotes_head_pos (query : List ℚ) (notes : List Candidate)
    (top : ScoredNote) (rest : List ScoredNote)
    (h : chatContextNotes query notes = top :: rest) : (0.3 : ℝ) < top.similarity := by
  unfold chatContextNotes at h
  rcases heq : chatRelevantNotes query notes with _ | ⟨t, ts⟩ <;> rw [heq] at h
  · simp at h
  · by_cases hcond : (0.3 : ℝ) < t.similarity
    · simp only [hcond, if_pos, List.cons.injEq] at h
      obtain ⟨rfl, rfl⟩ := h
      exact hcond
    · simp [hcond] at h

/-- C7: at both the chat call site and the search call site the
returned sequence is sorted non-increasing by similarity score, and
candidates of equal score appear in their original input order (input
order is encoded by strictly increasing candidate ids). -/
theorem rank_sorted_stable (query : List ℚ) (notes : List Candidate)
    (hids : notes.Pairwise fun a b => a.id < b.id) :
    (chatContextNotes query notes).Pairwise rankedBefore ∧
    (searchResults query notes).Pairwise rankedBefore := by
  have hsc := pairwise_ids_scoreCandidates query notes hids
  constructor
  · have hrel : (chatRelevantNotes query notes).Pairwise rankedBefore := by
      unfold chatRelevantNotes
      exact (pairwise_sortDesc _ hsc).sublist (List.take_sublist 3 _)
    rcases chatContextNotes_cases query notes with h | h <;> rw [h]
    · exact List.Pairwise.nil
    · exact hrel
  · unfold searchResults
    exact (pairwise_sortDesc _ (hsc.filter _)).sublist (List.take_sublist 10 _)

/-- Amended C2: the search call site returns at most 10 results and
every returned similarity is strictly above 0.3; the chat call site
returns at most 3 results, but only the top-ranked similarity is
compared against 0.3 (as the gate for injecting any context at all),
so lower-ranked returned notes may score at or below 0.3. -/
theorem rank_bounded_scores (query : List ℚ) (notes : List Candidate) (r : ScoredNote)
    (hr : r ∈ searchResults query notes)
    (hc : chatContextNotes query notes ≠ []) :
    (searchResults query notes).length ≤ 10 ∧ (0.3 : ℝ) < r.similarity ∧
    (chatContextNotes query notes).length ≤ 3 ∧
    (0.3 : ℝ) < (chatContextNotes query notes).headI.similarity := by
  refine ⟨?_, ?_, chatContextNotes_length query notes, ?_⟩
  · unfold searchResults
    exact List.length_take_le 10 _
  · unfold searchResults at hr
    have hr2 := (mem_sortDesc _ _).mp (List.mem_of_mem_take hr)
    exact of_decide_eq_true (List.mem_filter.mp hr2).2
  · rcases heq : chatContextNotes query notes with _ | ⟨top, rest⟩
    · exact absurd heq hc
    · exact chatContextNotes_head_pos query notes top rest heq

/-- A note whose embedding points along the query [3, 4]: cosine 1. -/
def cA : Candidate := { id := 0, embedding := some [3, 4] }

/-- A note whose embedding is orthogonal to the query [3, 4]: cosine 0. -/
def cB : Candidate := { id := 1, embedding := some [-4, 3] }

theorem cos_q_self : cosineSimilarity [3, 4] [3, 4] = 1 := by
  have h25 : normSq [3, 4] = 25 := by norm_num [normSq, dotProduct]
  have hd : dotProduct [3, 4] [3, 4] = 25 := by norm_num [dotProduct]
  have hs : Real.sqrt ((25 : ℚ) : ℝ) * Real.sqrt ((25 : ℚ) : ℝ) = 25 := by
    rw [Real.mul_self_sqrt (by norm_num)]
    norm_num
  unfold cosineSimilarity
  rw [if_neg (by norm_num), if_neg (by norm_num [h25]), h25, hd, hs]
  norm_num

theorem cos_q_orth : cosineSimilarity [3, 4] [-4, 3] = 0 := by
  have hd : dotProduct [3, 4] [-4, 3] = 0 := by norm_num [dotProduct]
  unfold cosineSimilarity
  rw [if_neg (by norm_num), if_neg (by norm_num [normSq, dotProduct]), hd]
  norm_num

theorem scoreCandidates_ex :
    scoreCandidates [3, 4] [cA, cB]
      = [{ note := cA, similarity := 1 }, { note := cB, similarity := 0 }] := by
  unfold scoreCandidates
  norm_num [cA, cB, hasEmbedding, usableEmbedding, cos_q_self, cos_q_orth]

theorem chatContext_ex :
    chatContextNotes [3, 4] [cA, cB]
      = [{ note := cA, similarity := 1 }, { note := cB, similarity := 0 }] := by
  unfold chatContextNotes chatRelevantNotes
  rw [scoreCandidates_ex]
  norm_num [sortDesc, insertDesc]

theorem searchResults_ex :
    searchResults [3, 4] [cA, cB] = [{ note := cA, similarity := 1 }] := by
  unfold searchResults
  rw [scoreCandidates_ex]
  norm_num [sortDesc, insertDesc, List.filter]

/-- C2 fails at the chat context-injection call site: with query
[3, 4] and notes cA, cB, the injected context is the full two-element
ranking, whose second entry carries similarity 0, not strictly greater
than minScore 0.3.  Only the top score is compared against 0.3. -/
theorem rank_minscore_cex :
    chatContextNotes [3, 4] [cA, cB]
      = [{ note := cA, similarity := 1 }, { note := cB, similarity := 0 }] ∧
    ({ note := cB, similarity := 0 } : ScoredNote) ∈ chatContextNotes [3, 4] [cA, cB] ∧
    ¬ ((0.3 : ℝ) < ({ note := cB, similarity := 0 } : ScoredNote).similarity) :=
  ⟨chatContext_ex, by rw [chatContext_ex]; simp, by norm_num⟩

theorem rank_bounded_scores_witness :
    ({ note := cA, similarity := 1 } : ScoredNote) ∈ searchResults [3, 4] [cA, cB] ∧
    chatContextNotes [3, 4] [cA, cB] ≠ [] ∧
    ((searchResults [3, 4] [cA, cB]).length ≤ 10 ∧
     (0.3 : ℝ) < ({ note := cA, similarity := 1 } : ScoredNote).similarity ∧
     (chatContextNotes [3, 4] [cA, cB]).length ≤ 3 ∧
     (0.3 : ℝ) < (chatContextNotes [3, 4] [cA, cB]).headI.similarity) :=
  ⟨by rw [searchResults_ex]; simp,
   by rw [chatContext_ex]; simp,
   rank_bounded_scores [3, 4] [cA, cB] { note := cA, similarity := 1 }
     (by rw [searchResults_ex]; simp)
     (by rw [chatContext_ex]; simp)⟩

theorem rank_sorted_stable_witness :
    ([cA, cB].Pairwise fun a b => a.id < b.id) ∧
    ((chatContextNotes [3, 4] [cA, cB]).Pairwise rankedBefore ∧
     (searchResults [3, 4] [cA, cB]).Pairwise rankedBefore) :=
  ⟨by simp [cA, cB], rank_sorted_stable [3, 4] [cA, cB] (by simp [cA, cB])⟩

/-! ## Scheduler claims -/

theorem sm2Review_easeFactor (s : RepetitionState) (q : ℚ) :
    (sm2Review s q).easeFactor = updateEase s.easeFactor q := by
  unfold sm2Review
  split <;> rfl

/-- C1 fails: a submission with quality 6 on an existing card is not
rejected; the handler applies the SM-2 transition with the raw value
(the ease factor even rises by 0.16) and persists the new state and a
review event. -/
theorem review_out_of_range_cex :
    reviewHandler (some "card1") (some 6) (fun _ => some defaultState)
      = .ok { state := { easeFactor := 2.66, interval := 1, repetitions := 1 },
              eventQuality := 6 } ∧
    reviewHandler (some "card1") (some 6) (fun _ => some defaultState)
      ≠ .error .invalidInput := by
  constructor
  · norm_num [reviewHandler, sm2Review, updateEase, defaultState]
  · simp [reviewHandler]

/-- Amended C1: the review operation rejects with a client error only
when the flashcardId or the quality field is absent; a present quality
outside {0,...,5} is neither rejected nor clamped — the SM-2
transition runs on the raw value and its result is persisted together
with a review event carrying that value. -/
theorem review_no_quality_validation (fid : String) (q : ℚ)
    (lookup : String → Option RepetitionState) (s : RepetitionState)
    (hs : lookup fid = some s) :
    reviewHandler (some fid) (some q) lookup
      = .ok { state := sm2Review s q, eventQuality := q } ∧
    reviewHandler (some fid) none lookup = .error .invalidInput ∧
    reviewHandler none (some q) lookup = .error .invalidInput := by
  refine ⟨?_, rfl, rfl⟩
  simp [reviewHandler, hs]

theorem review_no_quality_validation_witness :
    ((fun _ : String => some defaultState) "c" = some defaultState) ∧
    (reviewHandler (some "c") (some 6) (fun _ : String => some defaultState)
        = .ok { state := sm2Review defaultState 6, eventQuality := 6 } ∧
     reviewHandler (some "c") none (fun _ : String => some defaultState)
        = .error .invalidInput ∧
     reviewHandler none (some 6) (fun _ : String => some defaultState)
        = .error .invalidInput) :=
  ⟨rfl, review_no_quality_validation "c" 6 _ defaultState rfl⟩

/-- C3 fails: after two quality-4 reviews and a third with quality 5,
the stored interval is 15 = round(6 * 2.5), computed from the ease
factor before the update, while round(6 * newEaseFactor)
= round(6 * 2.6) = 16. -/
theorem third_review_cex :
    (sm2Review (sm2Review (sm2Review defaultState 4) 4) 5).interval = 15 ∧
    (sm2Review (sm2Review (sm2Review defaultState 4) 4) 5).easeFactor = 2.6 ∧
    jsRound (6 * (sm2Review (sm2Review (sm2Review defaultState 4) 4) 5).easeFactor) = 16 ∧
    (sm2Review (sm2Review (sm2Review defaultState 4) 4) 5).interval
      ≠ jsRound (6 * (sm2Review (sm2Review (sm2Review defaultState 4) 4) 5).easeFactor) := by
  rw [sm2_third_pass]
  refine ⟨rfl, rfl, ?_, ?_⟩ <;> norm_num [jsRound]

/-- Amended C3: the third review yields
interval = round(6 * priorEaseFactor), where priorEaseFactor = 2.5 is
the ease factor before the third update; concretely the interval is
15. -/
theorem third_review_interval :
    (sm2Review (sm2Review (sm2Review defaultState 4) 4) 5).interval
      = jsRound (6 * (sm2Review (sm2Review defaultState 4) 4).easeFactor) ∧
    (sm2Review (sm2Review defaultState 4) 4).easeFactor = 2.5 ∧
    (sm2Review (sm2Review (sm2Review defaultState 4) 4) 5).interval = 15 := by
  rw [sm2_third_pass, sm2_second_pass]
  refine ⟨?_, rfl, rfl⟩
  norm_num [jsRound]

/-- C4: for a state with easeFactor at least 1.3 and a valid quality,
the ease factor after a review is still at least 1.3 and equals
max(1.3, easeFactor + (0.1 - (5 - q)(0.08 + (5 - q) 0.02))). -/
theorem ease_floor_and_formula (s : RepetitionState) (q : ℚ)
    (hef : (1.3 : ℚ) ≤ s.easeFactor) (h0 : 0 ≤ q) (h5 : q ≤ 5) :
    (1.3 : ℚ) ≤ (sm2Review s q).easeFactor ∧
    (sm2Review s q).easeFactor
      = max 1.3 (s.easeFactor + (0.1 - (5 - q) * (0.08 + (5 - q) * 0.02))) := by
  rw [sm2Review_easeFactor]
  exact ⟨le_max_left _ _, rfl⟩

theorem ease_floor_and_formula_witness :
    ((1.3 : ℚ) ≤ defaultState.easeFactor ∧ (0 : ℚ) ≤ 4 ∧ (4 : ℚ) ≤ 5) ∧
    ((1.3 : ℚ) ≤ (sm2Review defaultState 4).easeFactor ∧
     (sm2Review defaultState 4).easeFactor
       = max 1.3 (defaultState.easeFactor + (0.1 - (5 - 4) * (0.08 + (5 - 4) * 0.02)))) :=
  ⟨⟨by norm_num [defaultState], by norm_num, by norm_num⟩,
   ease_floor_and_formula defaultState 4 (by norm_num [defaultState]) (by norm_num)
     (by norm_num)⟩

/-- C5: any review with quality below 3 resets repetitions to 0 and
the interval to 1, while the ease factor is still updated by the
standard floored formula — decreased, not reset. -/
theorem lapse_resets (s : RepetitionState) (q : ℚ) (h0 : 0 ≤ q) (h3 : q < 3) :
    (sm2Review s q).repetitions = 0 ∧ (sm2Review s q).interval = 1 ∧
    (sm2Review s q).easeFactor
      = max 1.3 (s.easeFactor + (0.1 - (5 - q) * (0.08 + (5 - q) * 0.02))) ∧
    ((1.3 : ℚ) ≤ s.easeFactor → (sm2Review s q).easeFactor ≤ s.easeFactor) := by
  have hne : ¬ (3 ≤ q) := not_le.mpr h3
  unfold sm2Review
  rw [if_neg hne]
  refine ⟨rfl, rfl, rfl, ?_⟩
  intro hef
  show updateEase s.easeFactor q ≤ s.easeFactor
  unfold updateEase
  apply max_le hef
  nlinarith [sq_nonneg (5 - q)]

theorem lapse_resets_witness :
    ((0 : ℚ) ≤ 1 ∧ (1 : ℚ) < 3) ∧
    ((sm2Review { easeFactor := 2.5, interval := 20, repetitions := 3 } 1).repetitions = 0 ∧
     (sm2Review { easeFactor := 2.5, interval := 20, repetitions := 3 } 1).interval = 1 ∧
     (sm2Review { easeFactor := 2.5, interval := 20, repetitions := 3 } 1).easeFactor
       = max 1.3 ((2.5 : ℚ) + (0.1 - (5 - 1) * (0.08 + (5 - 1) * 0.02))) ∧
     ((1.3 : ℚ) ≤ (2.5 : ℚ) →
      (sm2Review { easeFactor := 2.5, interval := 20, repetitions := 3 } 1).easeFactor
        ≤ (2.5 : ℚ))) :=
  ⟨⟨by norm_num, by norm_num⟩,
   lapse_resets { easeFactor := 2.5, interval := 20, repetitions := 3 } 1 (by norm_num)
     (by norm_num)⟩

/-- C6: for a passing review the new interval is 1 from zero
repetitions, 6 from one repetition, and round(interval * easeFactor)
otherwise; repetitions always increments by exactly 1. -/
theorem pass_intervals (s : RepetitionState) (q : ℚ) (h3 : 3 ≤ q) :
    (s.repetitions = 0 → (sm2Review s q).interval = 1) ∧
    (s.repetitions = 1 → (sm2Review s q).interval = 6) ∧
    (2 ≤ s.repetitions →
      (sm2Review s q).interval = jsRound ((s.interval : ℚ) * s.easeFactor)) ∧
    (sm2Review s q).repetitions = s.repetitions + 1 := by
  unfold sm2Review
  rw [if_pos h3]
  refine ⟨?_, ?_, ?_, rfl⟩
  · intro h
    simp [h]
  · intro h
    simp [h]
  · intro h
    have h0 : s.repetitions ≠ 0 := by omega
    have h1 : s.repetitions ≠ 1 := by omega
    simp [h0, h1]

theorem pass_intervals_witness :
    ((3 : ℚ) ≤ 5) ∧
    (((2 : ℕ) = 0 →
        (sm2Review { easeFactor := 2.5, interval := 6, repetitions := 2 } 5).interval = 1) ∧
     ((2 : ℕ) = 1 →
        (sm2Review { easeFactor := 2.5, interval := 6, repetitions := 2 } 5).interval = 6) ∧
     (2 ≤ (2 : ℕ) →
        (sm2Review { easeFactor := 2.5, interval := 6, repetitions := 2 } 5).interval
          = jsRound (((6 : ℤ) : ℚ) * 2.5)) ∧
     (sm2Review { easeFactor := 2.5, interval := 6, repetitions := 2 } 5).repetitions
        = 2 + 1) :=
  ⟨by norm_num,
   pass_intervals { easeFactor := 2.5, interval := 6, repetitions := 2 } 5 (by norm_num)⟩

theorem jsRound_ge_one {x : ℚ} (hx : 1/2 ≤ x) : 1 ≤ jsRound x := by
  unfold jsRound
  rw [Int.le_floor]
  push_cast
  linarith

theorem interval_after_review {s : RepetitionState}
    (hinv : (1.3 : ℚ) ≤ s.easeFactor ∧ (2 ≤ s.repetitions → 1 ≤ s.interval)) (q : ℚ) :
    1 ≤ (sm2Review s q).interval := by
  obtain ⟨hef, hrep⟩ := hinv
  unfold sm2Review
  split
  · dsimp only
    split
    · exact le_refl 1
    · split
      · norm_num
      · rename_i hr0 hr1
        have hi : 1 ≤ s.interval := hrep (by omega)
        have hiq : (1 : ℚ) ≤ (s.interval : ℚ) := by exact_mod_cast hi
        apply jsRound_ge_one
        nlinarith
  · exact le_refl 1

theorem reachable_invariant {s : RepetitionState} (h : Reachable s) :
    (1.3 : ℚ) ≤ s.easeFactor ∧ (2 ≤ s.repetitions → 1 ≤ s.interval) := by
  induction h with
  | refl =>
    refine ⟨by norm_num [defaultState], fun h2 => ?_⟩
    norm_num [defaultState] at h2
  | step q hr h0 h5 ih =>
    refine ⟨by rw [sm2Review_easeFactor]; exact le_max_left _ _, fun _ => ?_⟩
    exact interval_after_review ih q

/-- C9: from any state reachable from a fresh card by valid reviews,
one more review always produces an interval of at least one day, so
the next review date lies strictly after the review time. -/
theorem reviewed_interval_pos (s : RepetitionState) (hs : Reachable s) (q : ℚ)
    (h0 : 0 ≤ q) (h5 : q ≤ 5) :
    1 ≤ (sm2Review s q).interval ∧
    ∀ now : ℤ, now < nextReviewAt now (sm2Review s q).interval := by
  have h1 := interval_after_review (reachable_invariant hs) q
  refine ⟨h1, fun now => ?_⟩
  unfold nextReviewAt
  omega

theorem reviewed_interval_pos_witness :
    Reachable defaultState ∧ ((0 : ℚ) ≤ 3 ∧ (3 : ℚ) ≤ 5) ∧
    (1 ≤ (sm2Review defaultState 3).interval ∧
     ∀ now : ℤ, now < nextReviewAt now (sm2Review defaultState 3).interval) :=
  ⟨Reachable.refl, ⟨by norm_num, by norm_num⟩,
   reviewed_interval_pos defaultState Reachable.refl 3 (by norm_num) (by norm_num)⟩

/-- C10: for a fixed prior state with easeFactor at least 1.3, the
post-review ease factor is monotone non-decreasing in the quality. -/
theorem ease_monotone (s : RepetitionState) (q1 q2 : ℚ)
    (hef : (1.3 : ℚ) ≤ s.easeFactor) (h0 : 0 ≤ q1) (h12 : q1 ≤ q2) (h5 : q2 ≤ 5) :
    (sm2Review s q1).easeFactor ≤ (sm2Review s q2).easeFactor := by
  rw [sm2Review_easeFactor, sm2Review_easeFactor]
  unfold updateEase
  have hd : s.easeFactor + (0.1 - (5 - q1) * (0.08 + (5 - q1) * 0.02))
      ≤ s.easeFactor + (0.1 - (5 - q2) * (0.08 + (5 - q2) * 0.02)) := by
    nlinarith [mul_nonneg (sub_nonneg.mpr h12) (by linarith : (0 : ℚ) ≤ (5 - q1) + (5 - q2))]
  exact max_le_max (le_refl _) hd

theorem ease_monotone_witness :
    ((1.3 : ℚ) ≤ defaultState.easeFactor ∧ (0 : ℚ) ≤ 2 ∧ (2 : ℚ) ≤ 4 ∧ (4 : ℚ) ≤ 5) ∧
    (sm2Review defaultState 2).easeFactor ≤ (sm2Review defaultState 4).easeFactor :=
  ⟨⟨by norm_num [defaultState], by norm_num, by norm_num, by norm_num⟩,
   ease_monotone defaultState 2 4 (by norm_num [defaultState]) (by norm_num) (by norm_num)
     (by norm_num)⟩

theorem dot_cast (a b : List ℚ) :
    ((dotProduct a b : ℚ) : ℝ)
      = (List.zipWith (fun x y => (x : ℝ) * (y : ℝ)) a b).sum := by
  induction a generalizing b with
  | nil => simp [dotProduct]
  | cons x xs ih =>
    cases b with
    | nil => simp [dotProduct]
    | cons y ys =>
      have hstep : dotProduct (x :: xs) (y :: ys) = x * y + dotProduct xs ys := by
        simp [dotProduct]
      rw [hstep]
      push_cast
      rw [ih ys]
      simp

theorem normSq_cast (a : List ℚ) :
    ((normSq a : ℚ) : ℝ) = (a.map fun x => ((x : ℝ)) ^ 2).sum := by
  induction a with
  | nil => simp [normSq, dotProduct]
  | cons x xs ih =>
    have hstep : normSq (x :: xs) = x * x + normSq xs := by
      simp [normSq, dotProduct]
    rw [hstep]
    push_cast
    rw [ih]
    simp
    ring

/-- C8: cosineSimilarity is a total function on pairs of rational
vectors; mismatched lengths or a zero norm (the empty vector included)
give exactly 0, and otherwise the result is the cosine of the two
vectors in the sense of the spec glossary. -/
theorem cosine_total (a b : List ℚ) :
    (a.length ≠ b.length → cosineSimilarity a b = 0) ∧
    ((normSq a = 0 ∨ normSq b = 0) → cosineSimilarity a b = 0) ∧
    (a.length = b.length → normSq a ≠ 0 → normSq b ≠ 0 →
      cosineSimilarity a b = cosineSpec a b) := by
  refine ⟨fun h => ?_, fun h => ?_, fun hl hna hnb => ?_⟩
  · unfold cosineSimilarity
    rw [if_pos h]
  · unfold cosineSimilarity
    by_cases hlen : a.length ≠ b.length
    · rw [if_pos hlen]
    · rw [if_neg hlen, if_pos h]
  · unfold cosineSimilarity cosineSpec
    rw [if_neg (by simp [hl]), if_neg (not_or.mpr ⟨hna, hnb⟩)]
    rw [dot_cast, normSq_cast, normSq_cast]

theorem cosine_total_witness :
    (([1, 2] : List ℚ).length ≠ ([1] : List ℚ).length ∧ cosineSimilarity [1, 2] [1] = 0) ∧
    ((normSq ([0] : List ℚ) = 0 ∨ normSq ([1] : List ℚ) = 0) ∧ cosineSimilarity [0] [1] = 0) :=
  ⟨⟨by norm_num, (cosine_total [1, 2] [1]).1 (by norm_num)⟩,
   ⟨Or.inl (by norm_num [normSq, dotProduct]),
    (cosine_total [0] [1]).2.1 (Or.inl (by norm_num [normSq, dotProduct]))⟩⟩

end LearnOS
